import Mathlib

/-!
Verification of the allocation-tracking core of the unified-runtime address
sanitizer layer (source file source/loader/layers/sanitizer/asan_interceptor.hpp).

The header declares the interceptor surface: the global allocation map,
allocate/release entry points, the per-device quarantine, the handle-keyed
metadata registries with their lookup helpers, the kernel local-argument map
and the adapter-holding helper.  Pure functions below are translated from the
header where the body is present there; operations whose bodies live in the
missing implementation files are modelled from the specification, as marked
in their doc comments.
-/

namespace UrSanitizer

/-- Lifecycle state of a tracked allocation. -/
inductive AllocState where
  | Live
  | Quarantined
  | Reclaimed
deriving DecidableEq

/-- Shadow byte states, modelled at byte granularity. -/
inductive ShadowState where
  | Unmapped
  | Addressable
  | RedzoneUnallocated
  | RedzoneAfterFree
deriving DecidableEq

/-- Result codes returned by interceptor operations. -/
inductive UrResult where
  | Success
  | ErrorInvalidFree
deriving DecidableEq

/-- One tracked allocation record (AllocInfo): the base of the enlarged
region obtained from the driver, the start and size of the user region,
the total size including both guard regions, the owning device and the
lifecycle state. -/
structure AllocInfo where
  allocBegin : Nat
  userBegin : Nat
  userSize : Nat
  allocSize : Nat
  device : Nat
  state : AllocState
deriving DecidableEq

/-- End of the enlarged region. -/
def AllocInfo.allocEnd (a : AllocInfo) : Nat := a.allocBegin + a.allocSize

/-- End of the user region. -/
def AllocInfo.userEnd (a : AllocInfo) : Nat := a.userBegin + a.userSize

/-- Configuration values consumed by the core (AsanOptions): minimum
guard-region size and the two quarantine thresholds. -/
structure AsanOptions where
  minRedzoneSize : Nat
  maxQuarantineCount : Nat
  maxQuarantineBytes : Nat

/- ======================================================================
   Driver retain/release traces of the metadata records (translated from
   the constructors and destructors in asan_interceptor.hpp).
   ====================================================================== -/

/-- A call into the external driver retain/release surface. -/
inductive DriverCall where
  | deviceRetain (h : Nat)
  | deviceRelease (h : Nat)
  | kernelRetain (h : Nat)
  | kernelRelease (h : Nat)
  | programRetain (h : Nat)
  | programRelease (h : Nat)
deriving DecidableEq

/-- Driver calls made by the DeviceInfo constructor: it only stores the
handle; the header states device handles are alive for the whole process
lifetime, so it performs no retain. -/
def deviceInfoCreateCalls (_h : Nat) : List DriverCall := []

/-- Driver calls made on DeviceInfo destruction: none (no matching release,
since no retain was taken). -/
def deviceInfoDestroyCalls (_h : Nat) : List DriverCall := []

/-- Driver calls made by the KernelInfo constructor: one pfnRetain on the
kernel handle. -/
def kernelInfoCreateCalls (h : Nat) : List DriverCall := [.kernelRetain h]

/-- Driver calls made by the KernelInfo destructor: one pfnRelease on the
kernel handle. -/
def kernelInfoDestroyCalls (h : Nat) : List DriverCall := [.kernelRelease h]

/-- Driver calls made by the ProgramInfo constructor: one pfnRetain on the
program handle. -/
def programInfoCreateCalls (h : Nat) : List DriverCall := [.programRetain h]

/-- Driver calls made by the ProgramInfo destructor: one pfnRelease on the
program handle. -/
def programInfoDestroyCalls (h : Nat) : List DriverCall := [.programRelease h]

/- ======================================================================
   Metadata registry lookups (translated from getContextInfo, getDeviceInfo,
   getProgramInfo, getKernelInfo in asan_interceptor.hpp).  Each body is
   an assert that the handle is present followed by returning the mapped
   record; the failed assert is modelled as a fatal outcome.
   ====================================================================== -/

/-- Outcome of a registry lookup: the registered record, or the fatal
assertion failure fired when the handle is absent. -/
inductive LookupResult where
  | found (r : Nat)
  | fatalNotFound
deriving DecidableEq

/-- The four handle-keyed registry maps of SanitizerInterceptor, each an
association list from driver handle to record identifier. -/
structure RegistryMaps where
  contextMap : List (Nat × Nat)
  deviceMap : List (Nat × Nat)
  programMap : List (Nat × Nat)
  kernelMap : List (Nat × Nat)

/-- Lookup in one registry map: assert presence (fatal when absent), then
return the mapped record. -/
def registryGet (m : List (Nat × Nat)) (h : Nat) : LookupResult :=
  match m.find? (fun p => p.1 == h) with
  | some p => .found p.2
  | none => .fatalNotFound

/-- getContextInfo from the header. -/
def getContextInfo (m : RegistryMaps) (h : Nat) : LookupResult :=
  registryGet m.contextMap h

/-- getDeviceInfo from the header. -/
def getDeviceInfo (m : RegistryMaps) (h : Nat) : LookupResult :=
  registryGet m.deviceMap h

/-- getProgramInfo from the header. -/
def getProgramInfo (m : RegistryMaps) (h : Nat) : LookupResult :=
  registryGet m.programMap h

/-- getKernelInfo from the header. -/
def getKernelInfo (m : RegistryMaps) (h : Nat) : LookupResult :=
  registryGet m.kernelMap h

/- ======================================================================
   Kernel local arguments (KernelInfo::LocalArgs is a std::map keyed by
   argument index, so iteration is in increasing key order).
   ====================================================================== -/

/-- Descriptor of a local (on-device scratch) kernel argument. -/
structure LocalArgsInfo where
  size : Nat
  sizeWithRedZone : Nat
deriving DecidableEq

/-- Ordered-map insertion as performed by std::map: place the new key at
its sorted position, replacing the value when the key is already bound. -/
def mapInsert (k : Nat) (v : LocalArgsInfo) :
    List (Nat × LocalArgsInfo) → List (Nat × LocalArgsInfo)
  | [] => [(k, v)]
  | p :: rest =>
    if k < p.1 then (k, v) :: p :: rest
    else if k = p.1 then (k, v) :: rest
    else p :: mapInsert k v rest

/-- The LocalArgs map after a sequence of insertions into an initially
empty map. -/
def setLocalArgs (args : List (Nat × LocalArgsInfo)) : List (Nat × LocalArgsInfo) :=
  args.foldl (fun m kv => mapInsert kv.1 kv.2 m) []

/- ======================================================================
   holdAdapter (translated from the body in asan_interceptor.hpp).  The
   external pfnAdapterRetain call is modelled as incrementing a driver-side
   retain counter and succeeding.
   ====================================================================== -/

/-- The adapter bookkeeping of SanitizerInterceptor: the set of held
adapters and the external (driver-side) retain count per handle. -/
structure AdapterState where
  adapters : List Nat
  externalRetains : Nat → Nat

/-- holdAdapter from the header: return success at once when the adapter
is already held, otherwise retain it through the driver and record it. -/
def holdAdapter (s : AdapterState) (a : Nat) : UrResult × AdapterState :=
  if a ∈ s.adapters then (.Success, s)
  else
    (.Success,
      { adapters := a :: s.adapters,
        externalRetains := fun x =>
          if x = a then s.externalRetains x + 1 else s.externalRetains x })

/-- Iterated calls to holdAdapter on the same handle. -/
def holdAdapterIter : Nat → AdapterState → Nat → AdapterState
  | 0, s, _ => s
  | n + 1, s, a => holdAdapterIter n (holdAdapter s a).2 a

/- ======================================================================
   The allocation registry, shadow memory and quarantine.  The header only
   declares allocateMemory, releaseMemory, findAllocInfoByAddress,
   m_AllocationMap and m_Quarantine; their bodies live in implementation
   files that are not part of the sources at hand, so the operations below
   are modelled from the specification (sections 4.1 to 4.3).
   ====================================================================== -/

/-- The interceptor state: the global address-ordered allocation map
(m_AllocationMap), the per-device shadow memory, the per-device quarantine
FIFO (front of the list is oldest) and the per-context per-device
allocation lists held by the ContextInfo records. -/
structure SState where
  allocMap : List AllocInfo
  shadow : Nat → Nat → ShadowState
  quarantine : Nat → List AllocInfo
  ctxAllocs : Nat → Nat → List Nat

/-- The initial interceptor state: nothing tracked, no shadow painted. -/
def initState : SState :=
  { allocMap := [],
    shadow := fun _ _ => .Unmapped,
    quarantine := fun _ => [],
    ctxAllocs := fun _ _ => [] }

/-- Modelled from the spec: paint of the Shadow Memory Manager (section 4.2,
implementation file missing).  Sets the shadow state of every byte of the
half-open range on the given device. -/
def paint (sh : Nat → Nat → ShadowState) (dev lo hi : Nat) (st : ShadowState) :
    Nat → Nat → ShadowState :=
  fun d a => if d = dev ∧ lo ≤ a ∧ a < hi then st else sh d a

/-- Insertion into the address-ordered global map, keyed by allocBegin. -/
def insertSorted (x : AllocInfo) : List AllocInfo → List AllocInfo
  | [] => [x]
  | y :: rest =>
    if x.allocBegin < y.allocBegin then x :: y :: rest
    else y :: insertSorted x rest

/-- Modelled from the spec: the AllocInfo built by allocate (section 4.1,
implementation file missing).  The guard regions have the configured
minimum redzone size on both sides of the user region. -/
def mkAllocInfo (cfg : AsanOptions) (dev size addr : Nat) : AllocInfo :=
  { allocBegin := addr,
    userBegin := addr + cfg.minRedzoneSize,
    userSize := size,
    allocSize := size + 2 * cfg.minRedzoneSize,
    device := dev,
    state := .Live }

/-- Modelled from the spec: allocateMemory (section 4.1, implementation file
missing).  The driver returned the enlarged region at addr; the new record
is inserted Live into the ordered global map and into the per-device list
of the owning context, the user region is painted Addressable and both
guard regions RedzoneUnallocated. -/
def allocateMemory (cfg : AsanOptions) (s : SState) (ctx dev size addr : Nat) :
    SState :=
  let ai := mkAllocInfo cfg dev size addr
  { allocMap := insertSorted ai s.allocMap,
    shadow :=
      paint
        (paint (paint s.shadow dev ai.allocBegin ai.userBegin .RedzoneUnallocated)
          dev ai.userEnd ai.allocEnd .RedzoneUnallocated)
        dev ai.userBegin ai.userEnd .Addressable,
    quarantine := s.quarantine,
    ctxAllocs := fun c d =>
      if c = ctx ∧ d = dev then s.ctxAllocs c d ++ [ai.userBegin]
      else s.ctxAllocs c d }

/-- Aggregate byte size of a quarantine queue. -/
def qBytes (q : List AllocInfo) : Nat := (q.map AllocInfo.allocSize).sum

/-- Both quarantine thresholds hold for the queue. -/
def fitsB (cfg : AsanOptions) (q : List AllocInfo) : Bool :=
  decide (q.length ≤ cfg.maxQuarantineCount) &&
    decide (qBytes q ≤ cfg.maxQuarantineBytes)

/-- Modelled from the spec: evictOne (section 4.3, implementation file
missing) as it acts on the global map and the shadow memory: the evicted
record is removed from the global index and its whole range repainted as
unmapped and reusable. -/
def reclaimOne (e : AllocInfo) (m : List AllocInfo)
    (sh : Nat → Nat → ShadowState) :
    List AllocInfo × (Nat → Nat → ShadowState) :=
  (m.filter (fun b => b.allocBegin != e.allocBegin),
    paint sh e.device e.allocBegin e.allocEnd .Unmapped)

/-- Modelled from the spec: the eviction loop of enqueue (section 4.3,
implementation file missing).  While either threshold is exceeded, pop the
oldest entry and reclaim it. -/
def evictUntilFit (cfg : AsanOptions) :
    List AllocInfo → List AllocInfo → (Nat → Nat → ShadowState) →
    List AllocInfo × List AllocInfo × (Nat → Nat → ShadowState)
  | [], m, sh => ([], m, sh)
  | e :: rest, m, sh =>
    if fitsB cfg (e :: rest) then (e :: rest, m, sh)
    else
      let p := reclaimOne e m sh
      evictUntilFit cfg rest p.1 p.2

/-- Modelled from the spec: enqueue of the Quarantine Manager (section 4.3,
implementation file missing).  Appends the record to the device FIFO and
evicts from the front until both thresholds are satisfied again. -/
def quarantineEnqueue (cfg : AsanOptions) (s : SState) (dev : Nat)
    (e : AllocInfo) : SState :=
  let r := evictUntilFit cfg (s.quarantine dev ++ [e]) s.allocMap s.shadow
  { allocMap := r.2.1,
    shadow := r.2.2,
    quarantine := fun d => if d = dev then r.1 else s.quarantine d,
    ctxAllocs := s.ctxAllocs }

/-- The record as mutated by a successful free: only the lifecycle state
changes, to Quarantined. -/
def releasedRecord (ai : AllocInfo) : AllocInfo := { ai with state := .Quarantined }

/-- The interceptor state right after a successful free has transitioned
the record and repainted its full region as freed, before the record is
handed to the Quarantine Manager. -/
def midState (s : SState) (ai : AllocInfo) : SState :=
  { allocMap :=
      s.allocMap.map
        (fun b => if b.allocBegin = ai.allocBegin then releasedRecord ai else b),
    shadow := paint s.shadow ai.device ai.allocBegin ai.allocEnd .RedzoneAfterFree,
    quarantine := s.quarantine,
    ctxAllocs := s.ctxAllocs }

/-- Modelled from the spec: releaseMemory (section 4.1, implementation file
missing).  Looks up the exact Live allocation starting at the given user
address; fails with InvalidFree leaving the state untouched when there is
none; otherwise transitions it to Quarantined, repaints the full region
(user bytes and both guard bands) as freed, and hands the record to the
Quarantine Manager of the owning device. -/
def releaseMemory (cfg : AsanOptions) (s : SState) (addr : Nat) :
    UrResult × SState :=
  match s.allocMap.find?
      (fun ai => decide (ai.userBegin = addr ∧ ai.state = AllocState.Live)) with
  | none => (.ErrorInvalidFree, s)
  | some ai =>
    (.Success, quarantineEnqueue cfg (midState s ai) ai.device (releasedRecord ai))

/-- Modelled from the spec: the ordered lookup inside findAllocInfoByAddress
(declaration in the header, implementation file missing).  On the sorted
map this returns the last entry whose base address is at most the queried
address, as the upper-bound-and-step-back idiom does. -/
def findLastLE : List AllocInfo → Nat → Option AllocInfo
  | [], _ => none
  | a :: rest, addr =>
    if a.allocBegin ≤ addr then
      match findLastLE rest addr with
      | some b => some b
      | none => some a
    else none

/-- Modelled from the spec: findAllocInfoByAddress (declaration in the
header, implementation file missing).  Ordered lookup over the sorted
non-overlapping intervals, then a containment check against the end of the
candidate range. -/
def findAllocInfoByAddress (m : List AllocInfo) (addr : Nat) : Option AllocInfo :=
  match findLastLE m addr with
  | none => none
  | some ai => if addr < ai.allocEnd then some ai else none

/-- The driver returns a fresh region: disjoint from every region it has
handed out and not yet physically reclaimed, which is exactly the set of
ranges recorded in the global map. -/
def freshFor (s : SState) (addr sz : Nat) : Prop :=
  ∀ ai ∈ s.allocMap, addr + sz ≤ ai.allocBegin ∨ ai.allocEnd ≤ addr

instance (s : SState) (addr sz : Nat) : Decidable (freshFor s addr sz) := by
  unfold freshFor; infer_instance

/-- The states reachable by sequences of allocateMemory and releaseMemory
operations from the initial state.  An allocation step carries the driver
response: a nonempty request and a fresh region for the enlarged size. -/
inductive Reachable (cfg : AsanOptions) : SState → Prop
  | init : Reachable cfg initState
  | alloc {s : SState} (ctx dev size addr : Nat) (hs : 0 < size)
      (hf : freshFor s addr (size + 2 * cfg.minRedzoneSize))
      (hr : Reachable cfg s) :
      Reachable cfg (allocateMemory cfg s ctx dev size addr)
  | release {s : SState} (addr : Nat) (hr : Reachable cfg s) :
      Reachable cfg (releaseMemory cfg s addr).2

/- ======================================================================
   Helper notions.
   ====================================================================== -/

/-- The whole range of x lies strictly before the range of y. -/
def orderedBefore (x y : AllocInfo) : Prop := x.allocEnd ≤ y.allocBegin

/-- Well-formedness of a record produced by allocate: the user region sits
between two guard regions of the configured minimum redzone size, and the
request was nonempty. -/
def WF (cfg : AsanOptions) (ai : AllocInfo) : Prop :=
  ai.userBegin = ai.allocBegin + cfg.minRedzoneSize ∧
  ai.allocSize = ai.userSize + 2 * cfg.minRedzoneSize ∧
  0 < ai.userSize

/-- The global-map effect of evicting a list of quarantine entries, oldest
first: each eviction erases the entry with the matching base address. -/
def reclaimMap (es : List AllocInfo) (m : List AllocInfo) : List AllocInfo :=
  es.foldl (fun acc e => acc.filter (fun b => b.allocBegin != e.allocBegin)) m

/-- The shadow-memory effect of evicting a list of quarantine entries:
each evicted range is repainted as unmapped and reusable. -/
def reclaimShadow (es : List AllocInfo) (sh : Nat → Nat → ShadowState) :
    Nat → Nat → ShadowState :=
  es.foldl (fun acc e => paint acc e.device e.allocBegin e.allocEnd .Unmapped) sh

/-- The inductive invariant of the interceptor state: the global map is
address ordered (hence its Live and Quarantined ranges never overlap), all
records are well formed and not yet Reclaimed, quarantine entries are
backed by Quarantined records of the map of their own device with
pairwise distinct base addresses, and the whole original range of every
quarantined record reads as freed in shadow memory. -/
structure Inv (cfg : AsanOptions) (s : SState) : Prop where
  ordered : s.allocMap.Pairwise orderedBefore
  wf : ∀ ai ∈ s.allocMap, WF cfg ai
  liveOrQ : ∀ ai ∈ s.allocMap, ai.state = .Live ∨ ai.state = .Quarantined
  quarMem : ∀ dev, ∀ e ∈ s.quarantine dev,
      e ∈ s.allocMap ∧ e.state = .Quarantined ∧ e.device = dev
  quarNodup : ∀ dev, ((s.quarantine dev).map AllocInfo.allocBegin).Nodup
  shadowQuar : ∀ dev, ∀ e ∈ s.quarantine dev, ∀ a, e.allocBegin ≤ a →
      a < e.allocEnd → s.shadow e.device a = .RedzoneAfterFree

/- ======================================================================
   Concrete sample runs used to witness the theorems on explicit inputs.
   ====================================================================== -/

/-- A small configuration: one byte of redzone, at most two quarantined
records of at most one hundred aggregate bytes per device. -/
def sampleCfg : AsanOptions :=
  { minRedzoneSize := 1, maxQuarantineCount := 2, maxQuarantineBytes := 100 }

/-- One allocation of two user bytes at base 10: record range 10 to 14,
user range 11 to 13. -/
def sampleS1 : SState := allocateMemory sampleCfg initState 0 0 2 10

/-- A second allocation of three user bytes at base 20: record range 20 to
25, user range 21 to 24. -/
def sampleS2 : SState := allocateMemory sampleCfg sampleS1 0 0 3 20

/-- The first allocation freed through its user address 11: its record is
quarantined and its range 10 to 14 is painted as freed. -/
def sampleS3 : SState := (releaseMemory sampleCfg sampleS2 11).2

/-- The quarantined record held in sampleS3. -/
def sampleQuarRecord : AllocInfo := releasedRecord (mkAllocInfo sampleCfg 0 2 10)

/-- Sample registry content for the four metadata maps. -/
def regSample : RegistryMaps :=
  { contextMap := [(1, 11)], deviceMap := [(2, 22)],
    programMap := [(3, 33)], kernelMap := [(4, 44)] }

/-- Sample adapter bookkeeping with nothing held yet. -/
def adapterSample : AdapterState :=
  { adapters := [], externalRetains := fun _ => 0 }

/- ======================================================================
   Helper lemmas.
   ====================================================================== -/

lemma paint_inside {sh : Nat → Nat → ShadowState} {dev lo hi : Nat}
    {st : ShadowState} {d a : Nat} (hd : d = dev) (h1 : lo ≤ a) (h2 : a < hi) :
    paint sh dev lo hi st d a = st := by
  simp [paint, hd, h1, h2]

lemma paint_outside {sh : Nat → Nat → ShadowState} {dev lo hi : Nat}
    {st : ShadowState} {d a : Nat} (h : ¬(d = dev ∧ lo ≤ a ∧ a < hi)) :
    paint sh dev lo hi st d a = sh d a := by
  simp only [paint, if_neg h]

lemma paint_outside_range {sh : Nat → Nat → ShadowState} {dev lo hi B E : Nat}
    {st : ShadowState} {d a : Nat} (hlo : B ≤ lo) (hhi : hi ≤ E)
    (ha : a < B ∨ E ≤ a) : paint sh dev lo hi st d a = sh d a := by
  apply paint_outside
  rintro ⟨-, h1, h2⟩
  omega

lemma mem_insertSorted (x : AllocInfo) (l : List AllocInfo) (z : AllocInfo) :
    z ∈ insertSorted x l ↔ z = x ∨ z ∈ l := by
  induction l with
  | nil => simp [insertSorted]
  | cons y rest ih =>
    by_cases h : x.allocBegin < y.allocBegin
    · simp [insertSorted, if_pos h]
    · simp only [insertSorted, if_neg h, List.mem_cons, ih]
      tauto

lemma insertSorted_pairwise {x : AllocInfo} {l : List AllocInfo}
    (hl : l.Pairwise orderedBefore)
    (hd : ∀ y ∈ l, x.allocEnd ≤ y.allocBegin ∨ y.allocEnd ≤ x.allocBegin)
    (hx : 0 < x.allocSize) :
    (insertSorted x l).Pairwise orderedBefore := by
  induction l with
  | nil => simp [insertSorted]
  | cons y rest ih =>
    rw [List.pairwise_cons] at hl
    obtain ⟨hy, hrest⟩ := hl
    by_cases h : x.allocBegin < y.allocBegin
    · rw [insertSorted, if_pos h, List.pairwise_cons]
      refine ⟨?_, List.pairwise_cons.mpr ⟨hy, hrest⟩⟩
      intro z hz
      rcases List.mem_cons.mp hz with rfl | hz
      · rcases hd z (List.mem_cons_self _ _) with h1 | h1
        · exact h1
        · exfalso; unfold AllocInfo.allocEnd at h1; omega
      · have h2 := hy z hz
        rcases hd y (List.mem_cons_self _ _) with h1 | h1
        · unfold orderedBefore AllocInfo.allocEnd at *; omega
        · exfalso; unfold AllocInfo.allocEnd at h1; omega
    · rw [insertSorted, if_neg h, List.pairwise_cons]
      constructor
      · intro z hz
        rcases (mem_insertSorted x rest z).mp hz with rfl | hz
        · rcases hd y (List.mem_cons_self _ _) with h1 | h1
          · exfalso; unfold AllocInfo.allocEnd at h1; omega
          · exact h1
        · exact hy z hz
      · exact ih hrest (fun z hz => hd z (List.mem_cons_of_mem _ hz))

lemma mem_unique_begin {l : List AllocInfo} (ho : l.Pairwise orderedBefore)
    (hp : ∀ x ∈ l, 0 < x.allocSize) :
    ∀ x ∈ l, ∀ y ∈ l, x.allocBegin = y.allocBegin → x = y := by
  induction l with
  | nil => intro x hx; exact absurd hx (List.not_mem_nil x)
  | cons z rest ih =>
    rw [List.pairwise_cons] at ho
    obtain ⟨hz, hrest⟩ := ho
    intro x hx y hy hxy
    rcases List.mem_cons.mp hx with hx1 | hx1
    · rcases List.mem_cons.mp hy with hy1 | hy1
      · rw [hx1, hy1]
      · exfalso
        have h1 := hz y hy1
        have h2 := hp x hx
        rw [hx1] at h2 hxy
        unfold orderedBefore AllocInfo.allocEnd at h1
        omega
    · rcases List.mem_cons.mp hy with hy1 | hy1
      · exfalso
        have h1 := hz x hx1
        have h2 := hp y hy
        rw [hy1] at h2 hxy
        unfold orderedBefore AllocInfo.allocEnd at h1
        omega
      · exact ih hrest (fun w hw => hp w (List.mem_cons_of_mem _ hw)) x hx1 y hy1 hxy

lemma mem_disjoint {l : List AllocInfo} (ho : l.Pairwise orderedBefore) :
    ∀ x ∈ l, ∀ y ∈ l, x ≠ y → orderedBefore x y ∨ orderedBefore y x := by
  induction l with
  | nil => intro x hx; exact absurd hx (List.not_mem_nil x)
  | cons z rest ih =>
    rw [List.pairwise_cons] at ho
    obtain ⟨hz, hrest⟩ := ho
    intro x hx y hy hxy
    rcases List.mem_cons.mp hx with hx1 | hx1
    · rcases List.mem_cons.mp hy with hy1 | hy1
      · exact absurd (hx1.trans hy1.symm) hxy
      · rw [hx1]
        exact Or.inl (hz y hy1)
    · rcases List.mem_cons.mp hy with hy1 | hy1
      · rw [hy1]
        exact Or.inr (hz x hx1)
      · exact ih hrest x hx1 y hy1 hxy

lemma reclaimMap_nil (m : List AllocInfo) : reclaimMap [] m = m := rfl

lemma reclaimMap_cons (e : AllocInfo) (es : List AllocInfo) (m : List AllocInfo) :
    reclaimMap (e :: es) m =
      reclaimMap es (m.filter (fun b => b.allocBegin != e.allocBegin)) := rfl

lemma reclaimShadow_cons (e : AllocInfo) (es : List AllocInfo)
    (sh : Nat → Nat → ShadowState) :
    reclaimShadow (e :: es) sh =
      reclaimShadow es (paint sh e.device e.allocBegin e.allocEnd .Unmapped) := rfl

lemma reclaimMap_sublist (es : List AllocInfo) (m : List AllocInfo) :
    (reclaimMap es m).Sublist m := by
  induction es generalizing m with
  | nil => exact List.Sublist.refl m
  | cons e es ih =>
    rw [reclaimMap_cons]
    exact (ih _).trans (List.filter_sublist m)

lemma mem_reclaimMap {es : List AllocInfo} {m : List AllocInfo} {b : AllocInfo}
    (hb : b ∈ m) (hne : ∀ e ∈ es, b.allocBegin ≠ e.allocBegin) :
    b ∈ reclaimMap es m := by
  induction es generalizing m with
  | nil => exact hb
  | cons e es ih =>
    rw [reclaimMap_cons]
    refine ih ?_ (fun x hx => hne x (List.mem_cons_of_mem _ hx))
    rw [List.mem_filter]
    exact ⟨hb, by simpa using hne e (List.mem_cons_self _ _)⟩

lemma reclaimShadow_outside {es : List AllocInfo}
    {sh : Nat → Nat → ShadowState} {d a : Nat}
    (h : ∀ e ∈ es, a < e.allocBegin ∨ e.allocEnd ≤ a) :
    reclaimShadow es sh d a = sh d a := by
  induction es generalizing sh with
  | nil => rfl
  | cons e es ih =>
    rw [reclaimShadow_cons, ih (fun x hx => h x (List.mem_cons_of_mem _ hx))]
    apply paint_outside
    rintro ⟨-, h1, h2⟩
    rcases h e (List.mem_cons_self _ _) with h3 | h3 <;> omega

lemma mkAllocInfo_allocBegin (cfg : AsanOptions) (dev size addr : Nat) :
    (mkAllocInfo cfg dev size addr).allocBegin = addr := rfl

lemma mkAllocInfo_userBegin (cfg : AsanOptions) (dev size addr : Nat) :
    (mkAllocInfo cfg dev size addr).userBegin = addr + cfg.minRedzoneSize := rfl

lemma mkAllocInfo_userEnd (cfg : AsanOptions) (dev size addr : Nat) :
    (mkAllocInfo cfg dev size addr).userEnd = addr + cfg.minRedzoneSize + size := rfl

lemma mkAllocInfo_allocEnd (cfg : AsanOptions) (dev size addr : Nat) :
    (mkAllocInfo cfg dev size addr).allocEnd = addr + (size + 2 * cfg.minRedzoneSize) :=
  rfl

lemma releasedRecord_allocBegin (ai : AllocInfo) :
    (releasedRecord ai).allocBegin = ai.allocBegin := rfl

lemma releasedRecord_allocSize (ai : AllocInfo) :
    (releasedRecord ai).allocSize = ai.allocSize := rfl

lemma releasedRecord_allocEnd (ai : AllocInfo) :
    (releasedRecord ai).allocEnd = ai.allocEnd := rfl

lemma releasedRecord_device (ai : AllocInfo) :
    (releasedRecord ai).device = ai.device := rfl

lemma releasedRecord_state (ai : AllocInfo) :
    (releasedRecord ai).state = .Quarantined := rfl

/-- Characterization of the eviction loop: it drops some number k of
entries from the front, exactly the shortest number that makes both
thresholds hold, and reclaims the dropped entries in the global map and
the shadow memory. -/
lemma evictUntilFit_spec (cfg : AsanOptions) (q m : List AllocInfo)
    (sh : Nat → Nat → ShadowState) :
    ∃ k, k ≤ q.length ∧
      evictUntilFit cfg q m sh =
        (q.drop k, reclaimMap (q.take k) m, reclaimShadow (q.take k) sh) ∧
      fitsB cfg (q.drop k) = true ∧
      ∀ j < k, fitsB cfg (q.drop j) = false := by
  induction q generalizing m sh with
  | nil =>
    refine ⟨0, Nat.le_refl _, rfl, ?_, by omega⟩
    simp [fitsB, qBytes]
  | cons e rest ih =>
    by_cases h : fitsB cfg (e :: rest) = true
    · refine ⟨0, Nat.zero_le _, ?_, h, by omega⟩
      rw [evictUntilFit, if_pos h]
      rfl
    · obtain ⟨k, hk, heq, hfit, hmin⟩ :=
        ih (m.filter (fun b => b.allocBegin != e.allocBegin))
          (paint sh e.device e.allocBegin e.allocEnd .Unmapped)
      refine ⟨k + 1, by simpa using Nat.succ_le_succ hk, ?_, hfit, ?_⟩
      · rw [evictUntilFit, if_neg h]
        exact heq
      · intro j hj
        match j with
        | 0 => simpa using h
        | j + 1 => exact hmin j (by omega)

lemma nodup_take_drop_ne {l : List AllocInfo}
    (h : (l.map AllocInfo.allocBegin).Nodup) (k : Nat) :
    ∀ x ∈ l.drop k, ∀ y ∈ l.take k, x.allocBegin ≠ y.allocBegin := by
  intro x hx y hy
  have hsplit : l.take k ++ l.drop k = l := List.take_append_drop k l
  have h2 : ((l.take k).map AllocInfo.allocBegin ++
      (l.drop k).map AllocInfo.allocBegin).Nodup := by
    rw [← List.map_append, hsplit]
    exact h
  obtain ⟨-, -, hdisj⟩ := List.nodup_append.mp h2
  intro heq
  exact hdisj (List.mem_map_of_mem _ hy) (heq ▸ List.mem_map_of_mem _ hx)

lemma Inv.pos {cfg : AsanOptions} {s : SState} (hi : Inv cfg s) :
    ∀ ai ∈ s.allocMap, 0 < ai.allocSize := by
  intro ai hai
  obtain ⟨-, h2, h3⟩ := hi.wf ai hai
  omega

lemma inv_init (cfg : AsanOptions) : Inv cfg initState := by
  constructor <;> simp [initState]

lemma allocateMemory_shadow_outside {cfg : AsanOptions} {s : SState}
    {ctx dev size addr d a : Nat}
    (ha : a < addr ∨ addr + (size + 2 * cfg.minRedzoneSize) ≤ a) :
    (allocateMemory cfg s ctx dev size addr).shadow d a = s.shadow d a := by
  have hd1 : ¬(d = dev ∧ addr ≤ a ∧ a < addr + cfg.minRedzoneSize) := by
    rintro ⟨-, h1, h2⟩; omega
  have hd2 : ¬(d = dev ∧ addr + cfg.minRedzoneSize + size ≤ a ∧
      a < addr + (size + 2 * cfg.minRedzoneSize)) := by
    rintro ⟨-, h1, h2⟩; omega
  have hd3 : ¬(d = dev ∧ addr + cfg.minRedzoneSize ≤ a ∧
      a < addr + cfg.minRedzoneSize + size) := by
    rintro ⟨-, h1, h2⟩; omega
  simp only [allocateMemory, paint, mkAllocInfo_allocBegin, mkAllocInfo_userBegin,
    mkAllocInfo_userEnd, mkAllocInfo_allocEnd]
  rw [if_neg hd3, if_neg hd2, if_neg hd1]

lemma inv_alloc {cfg : AsanOptions} {s : SState} (ctx dev size addr : Nat)
    (hs : 0 < size) (hf : freshFor s addr (size + 2 * cfg.minRedzoneSize))
    (hi : Inv cfg s) : Inv cfg (allocateMemory cfg s ctx dev size addr) := by
  have hmapeq : (allocateMemory cfg s ctx dev size addr).allocMap =
      insertSorted (mkAllocInfo cfg dev size addr) s.allocMap := rfl
  have hqeq : (allocateMemory cfg s ctx dev size addr).quarantine = s.quarantine :=
    rfl
  constructor
  · rw [hmapeq]
    apply insertSorted_pairwise hi.ordered
    · intro y hy
      have := hf y hy
      rw [mkAllocInfo_allocEnd, mkAllocInfo_allocBegin]
      unfold AllocInfo.allocEnd at this ⊢
      omega
    · show 0 < size + 2 * cfg.minRedzoneSize
      omega
  · rw [hmapeq]
    intro b hb
    rcases (mem_insertSorted _ _ b).mp hb with hb1 | hb1
    · rw [hb1]
      exact ⟨rfl, rfl, hs⟩
    · exact hi.wf b hb1
  · rw [hmapeq]
    intro b hb
    rcases (mem_insertSorted _ _ b).mp hb with hb1 | hb1
    · rw [hb1]
      exact Or.inl rfl
    · exact hi.liveOrQ b hb1
  · rw [hqeq, hmapeq]
    intro dv e he
    obtain ⟨h1, h2, h3⟩ := hi.quarMem dv e he
    exact ⟨(mem_insertSorted _ _ e).mpr (Or.inr h1), h2, h3⟩
  · rw [hqeq]
    exact hi.quarNodup
  · rw [hqeq]
    intro dv e he a h1 h2
    obtain ⟨hem, -, -⟩ := hi.quarMem dv e he
    have hfe := hf e hem
    have ha : a < addr ∨ addr + (size + 2 * cfg.minRedzoneSize) ≤ a := by
      unfold AllocInfo.allocEnd at hfe h2
      omega
    rw [allocateMemory_shadow_outside ha]
    exact hi.shadowQuar dv e he a h1 h2

lemma inv_mid {cfg : AsanOptions} {s : SState} {ai : AllocInfo}
    (hi : Inv cfg s) (hmem : ai ∈ s.allocMap) (hlive : ai.state = .Live) :
    Inv cfg (midState s ai) := by
  have huniq := mem_unique_begin hi.ordered hi.pos
  have hcong : (midState s ai).allocMap =
      s.allocMap.map (fun b => if b = ai then releasedRecord ai else b) := by
    show s.allocMap.map _ = s.allocMap.map _
    apply List.map_congr_left
    intro b hb
    by_cases hb1 : b = ai
    · rw [if_pos (by rw [hb1]), if_pos hb1]
    · have hb2 : ¬b.allocBegin = ai.allocBegin :=
        fun hbeq => hb1 (huniq b hb ai hmem hbeq)
      rw [if_neg hb2, if_neg hb1]
  have hgBegin : ∀ x : AllocInfo,
      (if x = ai then releasedRecord ai else x).allocBegin = x.allocBegin := by
    intro x
    by_cases hx : x = ai
    · rw [if_pos hx, hx]
      exact releasedRecord_allocBegin ai
    · rw [if_neg hx]
  have hgSize : ∀ x : AllocInfo,
      (if x = ai then releasedRecord ai else x).allocSize = x.allocSize := by
    intro x
    by_cases hx : x = ai
    · rw [if_pos hx, hx]
      exact releasedRecord_allocSize ai
    · rw [if_neg hx]
  have hqeq : (midState s ai).quarantine = s.quarantine := rfl
  constructor
  · rw [hcong, List.pairwise_map]
    apply hi.ordered.imp
    intro a b hab
    unfold orderedBefore AllocInfo.allocEnd at hab ⊢
    rw [hgBegin, hgBegin, hgSize]
    exact hab
  · rw [hcong]
    intro c hc
    obtain ⟨b, hb, hfb⟩ := List.mem_map.mp hc
    by_cases hb1 : b = ai
    · rw [← hfb, if_pos hb1]
      exact hi.wf ai hmem
    · rw [← hfb, if_neg hb1]
      exact hi.wf b hb
  · rw [hcong]
    intro c hc
    obtain ⟨b, hb, hfb⟩ := List.mem_map.mp hc
    by_cases hb1 : b = ai
    · rw [← hfb, if_pos hb1]
      exact Or.inr rfl
    · rw [← hfb, if_neg hb1]
      exact hi.liveOrQ b hb
  · rw [hqeq]
    intro dv e he
    obtain ⟨h1, h2, h3⟩ := hi.quarMem dv e he
    have hne : e ≠ ai := by
      intro h
      rw [h, hlive] at h2
      exact AllocState.noConfusion h2
    have h4 : (if e = ai then releasedRecord ai else e) ∈
        s.allocMap.map (fun b => if b = ai then releasedRecord ai else b) :=
      List.mem_map_of_mem _ h1
    rw [if_neg hne] at h4
    rw [hcong]
    exact ⟨h4, h2, h3⟩
  · rw [hqeq]
    exact hi.quarNodup
  · rw [hqeq]
    intro dv e he a h1 h2
    obtain ⟨hem, heQ, -⟩ := hi.quarMem dv e he
    have hne : e ≠ ai := by
      intro h
      rw [h, hlive] at heQ
      exact AllocState.noConfusion heQ
    have ha : a < ai.allocBegin ∨ ai.allocEnd ≤ a := by
      rcases mem_disjoint hi.ordered e hem ai hmem hne with h3 | h3 <;>
        (unfold orderedBefore at h3; unfold AllocInfo.allocEnd at h3 h2 ⊢; omega)
    show paint s.shadow ai.device ai.allocBegin ai.allocEnd
        .RedzoneAfterFree e.device a = _
    rw [paint_outside_range (Nat.le_refl _) (Nat.le_refl _) ha]
    exact hi.shadowQuar dv e he a h1 h2

lemma inv_enqueue {cfg : AsanOptions} {s : SState} {dev : Nat} {aq : AllocInfo}
    (hi : Inv cfg s) (hmem : aq ∈ s.allocMap) (hqs : aq.state = .Quarantined)
    (hdev : aq.device = dev)
    (hsh : ∀ a, aq.allocBegin ≤ a → a < aq.allocEnd →
      s.shadow aq.device a = .RedzoneAfterFree)
    (hnew : ∀ d, ∀ e ∈ s.quarantine d, e.allocBegin ≠ aq.allocBegin) :
    Inv cfg (quarantineEnqueue cfg s dev aq) := by
  obtain ⟨k, hk, heq, hfit, hmin⟩ :=
    evictUntilFit_spec cfg (s.quarantine dev ++ [aq]) s.allocMap s.shadow
  have huniq := mem_unique_begin hi.ordered hi.pos
  have hq'mem : ∀ e ∈ s.quarantine dev ++ [aq],
      e ∈ s.allocMap ∧ e.state = .Quarantined ∧ e.device = dev := by
    intro e he
    rcases List.mem_append.mp he with he1 | he1
    · exact hi.quarMem dev e he1
    · rw [List.mem_singleton.mp he1]
      exact ⟨hmem, hqs, hdev⟩
  have hq'nodup : ((s.quarantine dev ++ [aq]).map AllocInfo.allocBegin).Nodup := by
    rw [List.map_append, List.nodup_append]
    refine ⟨hi.quarNodup dev, List.nodup_singleton _, ?_⟩
    intro x hx hx2
    obtain ⟨e, he, hex⟩ := List.mem_map.mp hx
    rw [List.map_singleton, List.mem_singleton] at hx2
    rw [hx2] at hex
    exact hnew dev e he hex
  have hkeep : ∀ e, (e ∈ (s.quarantine dev ++ [aq]).drop k ∨
        ∃ d, d ≠ dev ∧ e ∈ s.quarantine d) →
      ∀ ev ∈ (s.quarantine dev ++ [aq]).take k, e.allocBegin ≠ ev.allocBegin := by
    intro e hcase ev hev
    rcases hcase with hdrop | ⟨d, hd, he⟩
    · exact nodup_take_drop_ne hq'nodup k e hdrop ev hev
    · obtain ⟨hevm, -, hevdev⟩ := hq'mem ev (List.take_subset k _ hev)
      obtain ⟨hem, -, hedev⟩ := hi.quarMem d e he
      intro heq2
      have h5 : e = ev := huniq e hem ev hevm heq2
      apply hd
      rw [← hedev, h5]
      exact hevdev
  have houtside : ∀ e, e ∈ s.allocMap →
      (∀ ev ∈ (s.quarantine dev ++ [aq]).take k, e.allocBegin ≠ ev.allocBegin) →
      ∀ a, e.allocBegin ≤ a → a < e.allocEnd →
      reclaimShadow ((s.quarantine dev ++ [aq]).take k) s.shadow e.device a =
        s.shadow e.device a := by
    intro e hem hne a h1 h2
    apply reclaimShadow_outside
    intro ev hev
    obtain ⟨hevm, -, -⟩ := hq'mem ev (List.take_subset k _ hev)
    have hneq : e ≠ ev := fun h => hne ev hev (by rw [h])
    rcases mem_disjoint hi.ordered e hem ev hevm hneq with h3 | h3 <;>
      (unfold orderedBefore at h3; unfold AllocInfo.allocEnd at h3 h2 ⊢; omega)
  have hN1 : (quarantineEnqueue cfg s dev aq).allocMap =
      reclaimMap ((s.quarantine dev ++ [aq]).take k) s.allocMap := by
    simp only [quarantineEnqueue, heq]
  have hN2 : (quarantineEnqueue cfg s dev aq).shadow =
      reclaimShadow ((s.quarantine dev ++ [aq]).take k) s.shadow := by
    simp only [quarantineEnqueue, heq]
  have hN3 : ∀ d, (quarantineEnqueue cfg s dev aq).quarantine d =
      if d = dev then (s.quarantine dev ++ [aq]).drop k else s.quarantine d := by
    intro d
    simp only [quarantineEnqueue, heq]
  constructor
  · rw [hN1]
    exact hi.ordered.sublist (reclaimMap_sublist _ _)
  · rw [hN1]
    intro b hb
    exact hi.wf b ((reclaimMap_sublist _ _).subset hb)
  · rw [hN1]
    intro b hb
    exact hi.liveOrQ b ((reclaimMap_sublist _ _).subset hb)
  · intro d e he
    rw [hN3 d] at he
    rw [hN1]
    by_cases hd : d = dev
    · rw [if_pos hd] at he
      obtain ⟨hem, hQ, hdv⟩ := hq'mem e (List.drop_subset k _ he)
      refine ⟨mem_reclaimMap hem (hkeep e (Or.inl he)), hQ, ?_⟩
      rw [hd]
      exact hdv
    · rw [if_neg hd] at he
      obtain ⟨hem, hQ, hdv⟩ := hi.quarMem d e he
      exact ⟨mem_reclaimMap hem (hkeep e (Or.inr ⟨d, hd, he⟩)), hQ, hdv⟩
  · intro d
    rw [hN3 d]
    by_cases hd : d = dev
    · rw [if_pos hd]
      exact hq'nodup.sublist ((List.drop_sublist k _).map _)
    · rw [if_neg hd]
      exact hi.quarNodup d
  · intro d e he a h1 h2
    rw [hN3 d] at he
    rw [hN2]
    by_cases hd : d = dev
    · rw [if_pos hd] at he
      obtain ⟨hem, -, -⟩ := hq'mem e (List.drop_subset k _ he)
      rw [houtside e hem (hkeep e (Or.inl he)) a h1 h2]
      rcases List.mem_append.mp (List.drop_subset k _ he) with he1 | he1
      · exact hi.shadowQuar dev e he1 a h1 h2
      · rw [List.mem_singleton.mp he1] at h1 h2 ⊢
        exact hsh a h1 h2
    · rw [if_neg hd] at he
      obtain ⟨hem, -, -⟩ := hi.quarMem d e he
      rw [houtside e hem (hkeep e (Or.inr ⟨d, hd, he⟩)) a h1 h2]
      exact hi.shadowQuar d e he a h1 h2

lemma inv_release {cfg : AsanOptions} {s : SState} (addr : Nat) (hi : Inv cfg s) :
    Inv cfg (releaseMemory cfg s addr).2 := by
  rcases hfind : s.allocMap.find?
      (fun ai => decide (ai.userBegin = addr ∧ ai.state = AllocState.Live))
    with - | ai
  · simp only [releaseMemory, hfind]
    exact hi
  · have hmem := List.mem_of_find?_eq_some hfind
    have hpred := List.find?_some hfind
    rw [decide_eq_true_eq] at hpred
    obtain ⟨-, hlive⟩ := hpred
    have hmid := inv_mid hi hmem hlive
    have h0 : (if ai.allocBegin = ai.allocBegin then releasedRecord ai else ai) ∈
        (midState s ai).allocMap :=
      List.mem_map_of_mem _ hmem
    rw [if_pos rfl] at h0
    have hsh : ∀ a, (releasedRecord ai).allocBegin ≤ a →
        a < (releasedRecord ai).allocEnd →
        (midState s ai).shadow (releasedRecord ai).device a = .RedzoneAfterFree := by
      intro a h1 h2
      exact paint_inside rfl h1 h2
    have hnew : ∀ d, ∀ e ∈ (midState s ai).quarantine d,
        e.allocBegin ≠ (releasedRecord ai).allocBegin := by
      intro d e he heq2
      obtain ⟨hem, heQ, -⟩ := hi.quarMem d e he
      rw [releasedRecord_allocBegin] at heq2
      have h5 : e = ai := mem_unique_begin hi.ordered hi.pos e hem ai hmem heq2
      rw [h5, hlive] at heQ
      exact AllocState.noConfusion heQ
    simp only [releaseMemory, hfind]
    exact inv_enqueue hmid h0 rfl rfl hsh hnew

/-- Every reachable interceptor state satisfies the inductive invariant. -/
lemma reachable_inv {cfg : AsanOptions} {s : SState} (h : Reachable cfg s) :
    Inv cfg s := by
  induction h with
  | init => exact inv_init cfg
  | alloc ctx dev size addr hs hf hr ih => exact inv_alloc ctx dev size addr hs hf ih
  | release addr hr ih => exact inv_release addr ih

lemma findLastLE_some {m : List AllocInfo} {addr : Nat} {b : AllocInfo}
    (h : findLastLE m addr = some b) : b ∈ m ∧ b.allocBegin ≤ addr := by
  induction m with
  | nil => cases h
  | cons x rest ih =>
    rw [findLastLE] at h
    by_cases hx : x.allocBegin ≤ addr
    · rw [if_pos hx] at h
      rcases hrest : findLastLE rest addr with - | c
      · rw [hrest] at h
        cases h
        exact ⟨List.mem_cons_self _ _, hx⟩
      · rw [hrest] at h
        cases h
        obtain ⟨h1, h2⟩ := ih hrest
        exact ⟨List.mem_cons_of_mem _ h1, h2⟩
    · rw [if_neg hx] at h
      cases h

lemma findLastLE_complete {m : List AllocInfo} {addr : Nat}
    (ho : m.Pairwise orderedBefore) {ai : AllocInfo} (hmem : ai ∈ m)
    (hle : ai.allocBegin ≤ addr) :
    ∃ b, findLastLE m addr = some b ∧ b ∈ m ∧ b.allocBegin ≤ addr ∧
      ai.allocBegin ≤ b.allocBegin := by
  induction m with
  | nil => cases hmem
  | cons x rest ih =>
    rw [List.pairwise_cons] at ho
    obtain ⟨hx, hrest⟩ := ho
    rcases List.mem_cons.mp hmem with h1 | h1
    · have hxle : x.allocBegin ≤ addr := by rw [← h1]; exact hle
      rw [findLastLE, if_pos hxle]
      rcases hr : findLastLE rest addr with - | c
      · exact ⟨x, rfl, List.mem_cons_self _ _, hxle, by rw [h1]⟩
      · obtain ⟨hcm, hcle⟩ := findLastLE_some hr
        refine ⟨c, rfl, List.mem_cons_of_mem _ hcm, hcle, ?_⟩
        have h2 := hx c hcm
        unfold orderedBefore AllocInfo.allocEnd at h2
        rw [h1]
        omega
    · have hxai := hx ai h1
      have hxle : x.allocBegin ≤ addr := by
        unfold orderedBefore AllocInfo.allocEnd at hxai
        omega
      rw [findLastLE, if_pos hxle]
      obtain ⟨b, hb, hbm, hble, hbge⟩ := ih hrest h1
      rw [hb]
      exact ⟨b, rfl, List.mem_cons_of_mem _ hbm, hble, hbge⟩

/-- Correctness of the ordered lookup over a state satisfying the
invariant: it returns exactly the entry whose range contains the
address. -/
lemma findAlloc_iff {cfg : AsanOptions} {s : SState} (hi : Inv cfg s)
    (addr : Nat) (ai : AllocInfo) :
    findAllocInfoByAddress s.allocMap addr = some ai ↔
      ai ∈ s.allocMap ∧ ai.allocBegin ≤ addr ∧ addr < ai.allocEnd := by
  constructor
  · intro h
    unfold findAllocInfoByAddress at h
    rcases hf : findLastLE s.allocMap addr with - | b
    · rw [hf] at h
      cases h
    · rw [hf] at h
      have h' : (if addr < b.allocEnd then some b else none) = some ai := h
      by_cases hlt : addr < b.allocEnd
      · rw [if_pos hlt] at h'
        cases h'
        obtain ⟨hbm, hble⟩ := findLastLE_some hf
        exact ⟨hbm, hble, hlt⟩
      · rw [if_neg hlt] at h'
        cases h'
  · rintro ⟨hmem, h1, h2⟩
    obtain ⟨b, hb, hbm, hble, hbge⟩ := findLastLE_complete hi.ordered hmem h1
    have hbai : b = ai := by
      by_cases hne : b = ai
      · exact hne
      · exfalso
        rcases mem_disjoint hi.ordered b hbm ai hmem hne with h3 | h3
        · have hp := hi.pos b hbm
          unfold orderedBefore AllocInfo.allocEnd at h3
          omega
        · unfold orderedBefore at h3
          unfold AllocInfo.allocEnd at h3 h2
          omega
    unfold findAllocInfoByAddress
    rw [hb, hbai]
    show (if addr < ai.allocEnd then some ai else none) = some ai
    rw [if_pos h2]

lemma registryGet_not_key {m : List (Nat × Nat)} {h : Nat}
    (hn : h ∉ m.map Prod.fst) : registryGet m h = .fatalNotFound := by
  have hnone : m.find? (fun p => p.1 == h) = none := by
    rw [List.find?_eq_none]
    intro p hp
    simp only [beq_iff_eq]
    intro hph
    exact hn (hph ▸ List.mem_map_of_mem Prod.fst hp)
  unfold registryGet
  rw [hnone]

lemma registryGet_found {m : List (Nat × Nat)} {h r : Nat}
    (hnd : (m.map Prod.fst).Nodup) (hm : (h, r) ∈ m) :
    registryGet m h = .found r := by
  rcases hf : m.find? (fun p => p.1 == h) with - | q
  · exfalso
    rw [List.find?_eq_none] at hf
    have := hf (h, r) hm
    simp at this
  · have hq1 := List.find?_some hf
    rw [beq_iff_eq] at hq1
    have hqm := List.mem_of_find?_eq_some hf
    have hqe : q = (h, r) :=
      List.inj_on_of_nodup_map hnd hqm hm (by rw [hq1])
    unfold registryGet
    rw [hf, hqe]

lemma mapInsert_keys_mem (k : Nat) (v : LocalArgsInfo)
    (m : List (Nat × LocalArgsInfo)) (b : Nat) :
    b ∈ (mapInsert k v m).map Prod.fst ↔ b = k ∨ b ∈ m.map Prod.fst := by
  induction m with
  | nil => simp [mapInsert]
  | cons p rest ih =>
    by_cases h1 : k < p.1
    · rw [mapInsert, if_pos h1]
      simp [List.mem_cons]
    · by_cases h2 : k = p.1
      · rw [mapInsert, if_neg h1, if_pos h2]
        simp [List.mem_cons, h2]
      · rw [mapInsert, if_neg h1, if_neg h2]
        simp only [List.map_cons, List.mem_cons, ih]
        tauto

lemma mapInsert_keys_sorted {k : Nat} {v : LocalArgsInfo}
    {m : List (Nat × LocalArgsInfo)}
    (hm : (m.map Prod.fst).Pairwise (· < ·)) :
    ((mapInsert k v m).map Prod.fst).Pairwise (· < ·) := by
  induction m with
  | nil => simp [mapInsert]
  | cons p rest ih =>
    rw [List.map_cons, List.pairwise_cons] at hm
    obtain ⟨hp, hrest⟩ := hm
    by_cases h1 : k < p.1
    · rw [mapInsert, if_pos h1, List.map_cons, List.map_cons, List.pairwise_cons]
      constructor
      · intro b hb
        rcases List.mem_cons.mp hb with hb1 | hb1
        · rw [hb1]
          exact h1
        · exact h1.trans (hp b hb1)
      · rw [List.pairwise_cons]
        exact ⟨hp, hrest⟩
    · by_cases h2 : k = p.1
      · rw [mapInsert, if_neg h1, if_pos h2, List.map_cons, List.pairwise_cons]
        refine ⟨?_, hrest⟩
        intro b hb
        rw [h2]
        exact hp b hb
      · rw [mapInsert, if_neg h1, if_neg h2, List.map_cons, List.pairwise_cons]
        refine ⟨?_, ih hrest⟩
        intro b hb
        rcases (mapInsert_keys_mem k v rest b).mp hb with hb1 | hb1
        · rw [hb1]
          omega
        · exact hp b hb1

lemma holdAdapter_mem (s : AdapterState) (a : Nat) :
    a ∈ (holdAdapter s a).2.adapters := by
  by_cases h : a ∈ s.adapters
  · simp only [holdAdapter, if_pos h]
    exact h
  · simp only [holdAdapter, if_neg h]
    exact List.mem_cons_self _ _

lemma holdAdapter_of_mem {s : AdapterState} {a : Nat} (h : a ∈ s.adapters) :
    holdAdapter s a = (.Success, s) := by
  simp only [holdAdapter, if_pos h]

lemma holdAdapterIter_of_mem {a : Nat} :
    ∀ (n : Nat) (s : AdapterState), a ∈ s.adapters → holdAdapterIter n s a = s
  | 0, _, _ => rfl
  | n + 1, s, h => by
    rw [holdAdapterIter, holdAdapter_of_mem h]
    exact holdAdapterIter_of_mem n s h

lemma fitsB_true_iff {cfg : AsanOptions} {q : List AllocInfo} :
    fitsB cfg q = true ↔
      q.length ≤ cfg.maxQuarantineCount ∧ qBytes q ≤ cfg.maxQuarantineBytes := by
  simp [fitsB]

lemma fitsB_false_iff {cfg : AsanOptions} {q : List AllocInfo} :
    fitsB cfg q = false ↔
      cfg.maxQuarantineCount < q.length ∨ cfg.maxQuarantineBytes < qBytes q := by
  rw [← Bool.not_eq_true, fitsB_true_iff]
  omega

lemma sampleS1_reach : Reachable sampleCfg sampleS1 :=
  Reachable.alloc 0 0 2 10 (by decide) (by decide) Reachable.init

lemma sampleS2_reach : Reachable sampleCfg sampleS2 :=
  Reachable.alloc 0 0 3 20 (by decide) (by decide) sampleS1_reach

lemma sampleS3_reach : Reachable sampleCfg sampleS3 :=
  Reachable.release 11 sampleS2_reach

/- ======================================================================
   The claims.
   ====================================================================== -/

/-- C1: for every sequence of allocateMemory and releaseMemory operations,
at every point the address ranges of all allocations in state Live or
Quarantined recorded in the global allocation map are pairwise
non-overlapping. -/
theorem live_quarantined_ranges_disjoint {cfg : AsanOptions} {s : SState}
    (h : Reachable cfg s) :
    (s.allocMap.filter
        (fun ai => decide (ai.state = .Live ∨ ai.state = .Quarantined))).Pairwise
      (fun x y => x.allocEnd ≤ y.allocBegin ∨ y.allocEnd ≤ x.allocBegin) := by
  have hinv := reachable_inv h
  have h2 : s.allocMap.Pairwise
      (fun x y => x.allocEnd ≤ y.allocBegin ∨ y.allocEnd ≤ x.allocBegin) :=
    hinv.ordered.imp (fun hab => Or.inl hab)
  exact h2.sublist (List.filter_sublist _)

/-- C1 witness: the pairwise disjointness evaluated on the sample state
holding one Live and one Quarantined record. -/
theorem live_quarantined_ranges_disjoint_witness :
    (sampleS3.allocMap.filter
        (fun ai => decide (ai.state = .Live ∨ ai.state = .Quarantined))).Pairwise
      (fun x y => x.allocEnd ≤ y.allocBegin ∨ y.allocEnd ≤ x.allocBegin) :=
  live_quarantined_ranges_disjoint sampleS3_reach

/-- C2: for every address and every reachable state, findAllocInfoByAddress
returns exactly the unique Live or Quarantined allocation whose range
contains the address, and none when no tracked range contains it. -/
theorem findAllocInfoByAddress_spec {cfg : AsanOptions} {s : SState}
    (h : Reachable cfg s) (addr : Nat) :
    (∀ ai, findAllocInfoByAddress s.allocMap addr = some ai ↔
      ai ∈ s.allocMap ∧ (ai.state = .Live ∨ ai.state = .Quarantined) ∧
        ai.allocBegin ≤ addr ∧ addr < ai.allocEnd) ∧
    (findAllocInfoByAddress s.allocMap addr = none ↔
      ∀ ai ∈ s.allocMap, ¬(ai.allocBegin ≤ addr ∧ addr < ai.allocEnd)) := by
  have hinv := reachable_inv h
  have hiff := fun ai => findAlloc_iff hinv addr ai
  constructor
  · intro ai
    rw [hiff ai]
    constructor
    · rintro ⟨h1, h2, h3⟩
      exact ⟨h1, hinv.liveOrQ ai h1, h2, h3⟩
    · rintro ⟨h1, -, h2, h3⟩
      exact ⟨h1, h2, h3⟩
  · constructor
    · intro hnone ai hai hcontr
      have h4 := (hiff ai).mpr ⟨hai, hcontr.1, hcontr.2⟩
      rw [hnone] at h4
      cases h4
    · intro hno
      rcases hfa : findAllocInfoByAddress s.allocMap addr with - | b
      · rfl
      · exfalso
        obtain ⟨h1, h2, h3⟩ := (hiff b).mp hfa
        exact hno b h1 ⟨h2, h3⟩

/-- C2 witness: the lookup characterization evaluated on the sample state
at address 12, inside the quarantined record. -/
theorem findAllocInfoByAddress_spec_witness :
    (∀ ai, findAllocInfoByAddress sampleS3.allocMap 12 = some ai ↔
      ai ∈ sampleS3.allocMap ∧ (ai.state = .Live ∨ ai.state = .Quarantined) ∧
        ai.allocBegin ≤ 12 ∧ 12 < ai.allocEnd) ∧
    (findAllocInfoByAddress sampleS3.allocMap 12 = none ↔
      ∀ ai ∈ sampleS3.allocMap, ¬(ai.allocBegin ≤ 12 ∧ 12 < ai.allocEnd)) :=
  findAllocInfoByAddress_spec sampleS3_reach 12

/-- C3: releasing an address that is not the exact user start address of a
currently Live tracked allocation fails with the invalid-free error and
leaves the whole interceptor state, in particular the global map and the
per-context per-device lists, unchanged. -/
theorem releaseMemory_invalid_free {cfg : AsanOptions} {s : SState} {addr : Nat}
    (h : ∀ ai ∈ s.allocMap, ¬(ai.userBegin = addr ∧ ai.state = .Live)) :
    releaseMemory cfg s addr = (.ErrorInvalidFree, s) := by
  have hnone : s.allocMap.find?
      (fun ai => decide (ai.userBegin = addr ∧ ai.state = AllocState.Live)) =
        none := by
    rw [List.find?_eq_none]
    intro x hx
    simp only [decide_eq_true_eq]
    exact h x hx
  simp only [releaseMemory, hnone]

/-- C3 witness: address 10 is the base of the first sample record but not
its user start, so the release fails and returns the state unchanged. -/
theorem releaseMemory_invalid_free_witness :
    releaseMemory sampleCfg sampleS2 10 = (.ErrorInvalidFree, sampleS2) :=
  releaseMemory_invalid_free (by decide)

/-- C4: the per-device quarantine is a FIFO bounded by the configured entry
count and aggregate byte size: an enqueue appends at the back and drops
some number k of oldest entries from the front, where k is exactly the
least number that brings the queue back under both thresholds. -/
theorem quarantine_enqueue_fifo (cfg : AsanOptions) (s : SState) (dev : Nat)
    (e : AllocInfo) :
    ∃ k, (quarantineEnqueue cfg s dev e).quarantine dev =
        (s.quarantine dev ++ [e]).drop k ∧
      ((s.quarantine dev ++ [e]).drop k).length ≤ cfg.maxQuarantineCount ∧
      qBytes ((s.quarantine dev ++ [e]).drop k) ≤ cfg.maxQuarantineBytes ∧
      ∀ j < k,
        cfg.maxQuarantineCount < ((s.quarantine dev ++ [e]).drop j).length ∨
        cfg.maxQuarantineBytes < qBytes ((s.quarantine dev ++ [e]).drop j) := by
  obtain ⟨k, hk, heq, hfit, hmin⟩ :=
    evictUntilFit_spec cfg (s.quarantine dev ++ [e]) s.allocMap s.shadow
  obtain ⟨hf1, hf2⟩ := fitsB_true_iff.mp hfit
  refine ⟨k, ?_, hf1, hf2, ?_⟩
  · show (if dev = dev then _ else s.quarantine dev) = _
    rw [if_pos rfl, heq]
  · intro j hj
    exact fitsB_false_iff.mp (hmin j hj)

/-- C4 witness: the FIFO eviction characterization evaluated on the sample
state with a fresh record enqueued on device 0. -/
theorem quarantine_enqueue_fifo_witness :
    ∃ k, (quarantineEnqueue sampleCfg sampleS3 0 sampleQuarRecord).quarantine 0 =
        (sampleS3.quarantine 0 ++ [sampleQuarRecord]).drop k ∧
      ((sampleS3.quarantine 0 ++ [sampleQuarRecord]).drop k).length ≤
        sampleCfg.maxQuarantineCount ∧
      qBytes ((sampleS3.quarantine 0 ++ [sampleQuarRecord]).drop k) ≤
        sampleCfg.maxQuarantineBytes ∧
      ∀ j < k,
        sampleCfg.maxQuarantineCount <
          ((sampleS3.quarantine 0 ++ [sampleQuarRecord]).drop j).length ∨
        sampleCfg.maxQuarantineBytes <
          qBytes ((sampleS3.quarantine 0 ++ [sampleQuarRecord]).drop j) :=
  quarantine_enqueue_fifo sampleCfg sampleS3 0 sampleQuarRecord

/-- C5: right after allocateMemory with requested size S, the shadow state
of all S user bytes is Addressable and the shadow state of the configured
minimum redzone size of bytes immediately before and immediately after the
user region is RedzoneUnallocated. -/
theorem allocateMemory_shadow_spec (cfg : AsanOptions) (s : SState)
    (ctx dev size addr : Nat) :
    (∀ i, i < size →
      (allocateMemory cfg s ctx dev size addr).shadow dev
        (addr + cfg.minRedzoneSize + i) = .Addressable) ∧
    (∀ i, i < cfg.minRedzoneSize →
      (allocateMemory cfg s ctx dev size addr).shadow dev (addr + i) =
        .RedzoneUnallocated ∧
      (allocateMemory cfg s ctx dev size addr).shadow dev
        (addr + cfg.minRedzoneSize + size + i) = .RedzoneUnallocated) := by
  have hsh : (allocateMemory cfg s ctx dev size addr).shadow =
      paint
        (paint (paint s.shadow dev addr (addr + cfg.minRedzoneSize)
            .RedzoneUnallocated)
          dev (addr + cfg.minRedzoneSize + size)
          (addr + (size + 2 * cfg.minRedzoneSize)) .RedzoneUnallocated)
        dev (addr + cfg.minRedzoneSize) (addr + cfg.minRedzoneSize + size)
        .Addressable := rfl
  constructor
  · intro i hi2
    rw [hsh]
    exact paint_inside rfl (by omega) (by omega)
  · intro i hi2
    constructor
    · have h3 : ¬(dev = dev ∧ addr + cfg.minRedzoneSize ≤ addr + i ∧
          addr + i < addr + cfg.minRedzoneSize + size) := by
        rintro ⟨-, h4, -⟩
        omega
      have h2 : ¬(dev = dev ∧ addr + cfg.minRedzoneSize + size ≤ addr + i ∧
          addr + i < addr + (size + 2 * cfg.minRedzoneSize)) := by
        rintro ⟨-, h4, -⟩
        omega
      rw [hsh, paint_outside h3, paint_outside h2]
      exact paint_inside rfl (by omega) (by omega)
    · have h3 : ¬(dev = dev ∧
          addr + cfg.minRedzoneSize ≤ addr + cfg.minRedzoneSize + size + i ∧
          addr + cfg.minRedzoneSize + size + i <
            addr + cfg.minRedzoneSize + size) := by
        rintro ⟨-, -, h4⟩
        omega
      rw [hsh, paint_outside h3]
      exact paint_inside rfl (by omega) (by omega)

/-- C5 witness: the shadow painting property instantiated for an
allocation of 64 user bytes at base 100 in the empty initial state. -/
theorem allocateMemory_shadow_spec_witness :
    (∀ i, i < 64 →
      (allocateMemory sampleCfg initState 0 0 64 100).shadow 0
        (100 + sampleCfg.minRedzoneSize + i) = .Addressable) ∧
    (∀ i, i < sampleCfg.minRedzoneSize →
      (allocateMemory sampleCfg initState 0 0 64 100).shadow 0 (100 + i) =
        .RedzoneUnallocated ∧
      (allocateMemory sampleCfg initState 0 0 64 100).shadow 0
        (100 + sampleCfg.minRedzoneSize + 64 + i) = .RedzoneUnallocated) :=
  allocateMemory_shadow_spec sampleCfg initState 0 0 64 100

/-- C6: in every reachable state, every record still held in a device
quarantine has its entire original range, user bytes and both guard
regions, in shadow state RedzoneAfterFree; since this holds of all
reachable states, every operation between the successful release and the
eviction preserves it. -/
theorem quarantined_shadow_freed {cfg : AsanOptions} {s : SState}
    (h : Reachable cfg s) :
    ∀ dev, ∀ e ∈ s.quarantine dev, ∀ a, e.allocBegin ≤ a → a < e.allocEnd →
      s.shadow e.device a = .RedzoneAfterFree :=
  (reachable_inv h).shadowQuar

/-- C6 witness: byte 12 of the freed sample record, and also its guard
byte 10, read as freed in the sample state. -/
theorem quarantined_shadow_freed_witness :
    sampleS3.shadow sampleQuarRecord.device 12 = .RedzoneAfterFree ∧
    sampleS3.shadow sampleQuarRecord.device 10 = .RedzoneAfterFree :=
  ⟨quarantined_shadow_freed sampleS3_reach 0 sampleQuarRecord (by decide) 12
      (by decide) (by decide),
    quarantined_shadow_freed sampleS3_reach 0 sampleQuarRecord (by decide) 10
      (by decide) (by decide)⟩

/-- C7 counterexample: the DeviceInfo record performs no driver retain on
creation and no release on destruction, so the claim that Device records
retain once on creation and release once on destruction is false. -/
theorem device_record_no_retain_counterexample :
    ¬((deviceInfoCreateCalls 0).count (DriverCall.deviceRetain 0) = 1 ∧
      (deviceInfoDestroyCalls 0).count (DriverCall.deviceRelease 0) = 1) := by
  decide

/-- C7 amended: Program and Kernel records perform exactly one driver
retain on creation and exactly one matching release on destruction, and no
other driver call; Device records intentionally perform no retain and no
release, since device handles live for the whole process lifetime. -/
theorem record_retain_release_protocol (h : Nat) :
    kernelInfoCreateCalls h = [DriverCall.kernelRetain h] ∧
    kernelInfoDestroyCalls h = [DriverCall.kernelRelease h] ∧
    programInfoCreateCalls h = [DriverCall.programRetain h] ∧
    programInfoDestroyCalls h = [DriverCall.programRelease h] ∧
    deviceInfoCreateCalls h = [] ∧
    deviceInfoDestroyCalls h = [] :=
  ⟨rfl, rfl, rfl, rfl, rfl, rfl⟩

/-- C7 witness: the retain and release traces evaluated at handle 0. -/
theorem record_retain_release_protocol_witness :
    kernelInfoCreateCalls 0 = [DriverCall.kernelRetain 0] ∧
    kernelInfoDestroyCalls 0 = [DriverCall.kernelRelease 0] ∧
    programInfoCreateCalls 0 = [DriverCall.programRetain 0] ∧
    programInfoDestroyCalls 0 = [DriverCall.programRelease 0] ∧
    deviceInfoCreateCalls 0 = [] ∧
    deviceInfoDestroyCalls 0 = [] :=
  record_retain_release_protocol 0

/-- C8: each of the four metadata lookups is fatal, the failed assert, on
a handle absent from its registry map, and returns the registered record
on a handle the core has registered. -/
theorem registry_lookup_spec (m : RegistryMaps) (h r : Nat) :
    ((h ∉ m.contextMap.map Prod.fst → getContextInfo m h = .fatalNotFound) ∧
      ((m.contextMap.map Prod.fst).Nodup → (h, r) ∈ m.contextMap →
        getContextInfo m h = .found r)) ∧
    ((h ∉ m.deviceMap.map Prod.fst → getDeviceInfo m h = .fatalNotFound) ∧
      ((m.deviceMap.map Prod.fst).Nodup → (h, r) ∈ m.deviceMap →
        getDeviceInfo m h = .found r)) ∧
    ((h ∉ m.programMap.map Prod.fst → getProgramInfo m h = .fatalNotFound) ∧
      ((m.programMap.map Prod.fst).Nodup → (h, r) ∈ m.programMap →
        getProgramInfo m h = .found r)) ∧
    ((h ∉ m.kernelMap.map Prod.fst → getKernelInfo m h = .fatalNotFound) ∧
      ((m.kernelMap.map Prod.fst).Nodup → (h, r) ∈ m.kernelMap →
        getKernelInfo m h = .found r)) :=
  ⟨⟨fun hn => registryGet_not_key hn, fun hnd hm => registryGet_found hnd hm⟩,
    ⟨fun hn => registryGet_not_key hn, fun hnd hm => registryGet_found hnd hm⟩,
    ⟨fun hn => registryGet_not_key hn, fun hnd hm => registryGet_found hnd hm⟩,
    ⟨fun hn => registryGet_not_key hn, fun hnd hm => registryGet_found hnd hm⟩⟩

/-- C8 witness: on the sample registry, looking up registered context 1
returns its record 11, and looking up unregistered kernel 9 is fatal. -/
theorem registry_lookup_spec_witness :
    getContextInfo regSample 1 = .found 11 ∧
    getKernelInfo regSample 9 = .fatalNotFound :=
  ⟨(registry_lookup_spec regSample 1 11).1.2 (by decide) (by decide),
    (registry_lookup_spec regSample 9 0).2.2.2.1 (by decide)⟩

/-- C9: whatever the insertion order of local arguments, enumerating the
LocalArgs map yields the argument indices in strictly increasing order,
as the ordered-map container guarantees. -/
theorem localArgs_sorted (args : List (Nat × LocalArgsInfo)) :
    ((setLocalArgs args).map Prod.fst).Pairwise (· < ·) := by
  suffices hgen : ∀ m : List (Nat × LocalArgsInfo),
      (m.map Prod.fst).Pairwise (· < ·) →
      ((args.foldl (fun acc kv => mapInsert kv.1 kv.2 acc) m).map
        Prod.fst).Pairwise (· < ·) by
    exact hgen [] (by simp)
  induction args with
  | nil =>
    intro m hm
    exact hm
  | cons kv rest ih =>
    intro m hm
    rw [List.foldl_cons]
    exact ih _ (mapInsert_keys_sorted hm)

/-- C9 witness: three local arguments inserted out of order enumerate with
strictly increasing indices. -/
theorem localArgs_sorted_witness :
    ((setLocalArgs [(3, ⟨4, 8⟩), (1, ⟨2, 4⟩), (2, ⟨1, 2⟩)]).map
      Prod.fst).Pairwise (· < ·) :=
  localArgs_sorted [(3, ⟨4, 8⟩), (1, ⟨2, 4⟩), (2, ⟨1, 2⟩)]

/-- C10: holdAdapter returns success on every call; the first call on a
new adapter retains it through the driver exactly once, and every later
call on the same handle leaves the whole adapter state, including the
external retain count, unchanged. -/
theorem holdAdapter_idempotent (s : AdapterState) (a : Nat) :
    (holdAdapter s a).1 = .Success ∧
    (a ∉ s.adapters →
      (holdAdapter s a).2.externalRetains a = s.externalRetains a + 1) ∧
    (a ∈ s.adapters → (holdAdapter s a).2 = s) ∧
    (∀ n, 1 ≤ n → holdAdapterIter n s a = (holdAdapter s a).2) := by
  by_cases h : a ∈ s.adapters
  · rw [holdAdapter_of_mem h]
    refine ⟨rfl, fun hn => absurd h hn, fun _ => rfl, ?_⟩
    intro n hn
    exact holdAdapterIter_of_mem n s h
  · refine ⟨?_, ?_, fun hmem => absurd hmem h, ?_⟩
    · simp only [holdAdapter, if_neg h]
    · intro hn
      simp [holdAdapter, if_neg h]
    · intro n hn
      match n, hn with
      | n + 1, _ =>
        rw [holdAdapterIter]
        exact holdAdapterIter_of_mem n _ (holdAdapter_mem s a)

/-- C10 witness: holding adapter 5 three times from the empty sample state
succeeds, retains exactly once and is idempotent after the first call. -/
theorem holdAdapter_idempotent_witness :
    (holdAdapter adapterSample 5).1 = .Success ∧
    (holdAdapter adapterSample 5).2.externalRetains 5 =
      adapterSample.externalRetains 5 + 1 ∧
    holdAdapterIter 3 adapterSample 5 = (holdAdapter adapterSample 5).2 :=
  ⟨(holdAdapter_idempotent adapterSample 5).1,
    (holdAdapter_idempotent adapterSample 5).2.1 (by decide),
    (holdAdapter_idempotent adapterSample 5).2.2.2 3 (by omega)⟩

end UrSanitizer
